import Mathlib

/-!
Verification of the reflective-plate encode/decode core of
`scratch-hologram-visualizer` (`src/plate.py`).

Shallow embedding choices:
* 3-vectors are `Vec3 α`; scene inputs, cell coordinates and all plate
  geometry use exact rationals (`Q3`), the idealisation of the Python
  floats on the control path, so every addressing decision is decidable.
* Gradient values (outputs of `find_mirror`) live in `R3 = Vec3 ℝ`,
  since normalisation divides by `Real.sqrt`; angle tests use
  `Real.arccos` as the exact semantics of `np.arccos`.
* Python's `round` is banker's rounding (half to even): `pyround`.
* Python list indexing (negative wrap-around, `IndexError` as `none`)
  is `pyGetIdx`; the returned flat position doubles as the object
  identity of the `Cell`, which `encode_plate`'s staging dict keys on.
* `np.linalg.norm d <= 1.415` is embedded as `dot d d ≤ 1.415 ^ 2`;
  `Real.sqrt_le_left` (with `0 ≤ 1.415`) shows the two are equivalent,
  see `norm_le_iff_sq_le` below.
* A raised exception is `none` / `Except.error`: `Plate.__init__`'s
  `ValueError` makes `mkPlate` an `Option`, the reachable `IndexError`
  in `closest_cell` propagates through `sightline_cell` and
  `encode_plate`.
-/

namespace Holo

/-- A 3-component vector, the embedding of a length-3 `np.ndarray`. -/
structure Vec3 (α : Type) where
  x : α
  y : α
  z : α
  deriving DecidableEq, Repr

abbrev Q3 := Vec3 ℚ
abbrev R3 := Vec3 ℝ

instance [Add α] : Add (Vec3 α) := ⟨fun v w => ⟨v.x + w.x, v.y + w.y, v.z + w.z⟩⟩
instance [Sub α] : Sub (Vec3 α) := ⟨fun v w => ⟨v.x - w.x, v.y - w.y, v.z - w.z⟩⟩
instance [Neg α] : Neg (Vec3 α) := ⟨fun v => ⟨-v.x, -v.y, -v.z⟩⟩
instance [Zero α] : Zero (Vec3 α) := ⟨⟨0, 0, 0⟩⟩
instance [Mul α] : SMul α (Vec3 α) := ⟨fun c v => ⟨c * v.x, c * v.y, c * v.z⟩⟩

/-- Componentwise dot product, the embedding of `np.dot` on 3-vectors. -/
def dot [Add α] [Mul α] (v w : Vec3 α) : α :=
  v.x * w.x + v.y * w.y + v.z * w.z

/-- Cast a rational vector to a real vector. -/
def toR (v : Q3) : R3 := ⟨(v.x : ℝ), (v.y : ℝ), (v.z : ℝ)⟩

@[simp] theorem Vec3.add_def [Add α] (v w : Vec3 α) :
    v + w = ⟨v.x + w.x, v.y + w.y, v.z + w.z⟩ := rfl

@[simp] theorem Vec3.sub_def [Sub α] (v w : Vec3 α) :
    v - w = ⟨v.x - w.x, v.y - w.y, v.z - w.z⟩ := rfl

@[simp] theorem Vec3.smul_def [Mul α] (c : α) (v : Vec3 α) :
    c • v = ⟨c * v.x, c * v.y, c * v.z⟩ := rfl

@[simp] theorem Vec3.zero_def [Zero α] : (0 : Vec3 α) = ⟨0, 0, 0⟩ := rfl

@[simp] theorem toR_def (v : Q3) : toR v = ⟨(v.x : ℝ), (v.y : ℝ), (v.z : ℝ)⟩ := rfl

/-- Embedding of `np.linalg.norm`, exact: the Euclidean norm of a real 3-vector. -/
noncomputable def vnorm (v : R3) : ℝ := Real.sqrt (dot v v)

/-- plate.py `unit_vector`: `v / |v|` when `|v| > 0`, else the zero vector. -/
noncomputable def unit_vector (v : R3) : R3 :=
  if 0 < vnorm v then (1 / vnorm v) • v else 0

/-- plate.py `find_mirror`: normal of the mirror reflecting `a` to `b`
through `mirror_point`; the normalised sum of the two relative unit
directions.  All zeros when `a`/`b` is on the mirror point or the
directions cancel. -/
noncomputable def find_mirror (a b mirror_point : R3) : R3 :=
  let rel_a := a - mirror_point
  let rel_b := b - mirror_point
  unit_vector (unit_vector rel_a + unit_vector rel_b)

/-- Embedding of `np.clip x (-1) 1`. -/
def clip (x : ℝ) : ℝ := max (min x 1) (-1)

/-- plate.py `bulk_angle_between` at one data vector:
`arccos (clip (np.dot data query))`. -/
noncomputable def bulk_angle_between (unit_query unit_data : R3) : ℝ :=
  Real.arccos (clip (dot unit_data unit_query))

/-- One cell of the plate: fixed coordinates plus the gradients engraved
so far (initially the empty `(0,3)` array). -/
structure Cell where
  coords : Q3
  gradients : List R3

/-- The plate: grid origin, grid dimensions, and the flattened row-major
cell list (`plate.py` stores exactly this flat list). -/
structure Plate where
  start_x : ℤ
  start_y : ℤ
  size_x : ℤ
  size_y : ℤ
  cells : List Cell

/-- Python's `round`: round half to even (banker's rounding), which is
what `round` on a float does. -/
def pyround (q : ℚ) : ℤ :=
  let f := ⌊q⌋
  let r := q - f
  if r < 1/2 then f
  else if 1/2 < r then f + 1
  else if 2 ∣ f then f else f + 1

/-- Python list subscription `l[i]` on an `int` index: negative indices
wrap around from the end, and an out-of-range index raises (`none`).
Also returns the normalised non-negative position, which serves as the
object identity of the retrieved element. -/
def pyGetIdx (l : List Cell) (i : ℤ) : Option (ℕ × Cell) :=
  let n : ℤ := if 0 ≤ i then i else i + l.length
  if 0 ≤ n then (l.get? n.toNat).map (fun c => (n.toNat, c)) else none

/-- Embedding of `Plate.__init__`: raises `ValueError` on a non-positive size, else
builds the flattened row-major grid of cells with empty gradients. -/
def mkPlate (start_x start_y size_x size_y : ℤ) : Option Plate :=
  if size_x ≤ 0 ∨ size_y ≤ 0 then none
  else some
    { start_x := start_x
      start_y := start_y
      size_x := size_x
      size_y := size_y
      cells :=
        (List.range size_y.toNat).flatMap (fun y =>
          (List.range size_x.toNat).map (fun x =>
            { coords := ⟨(start_x : ℚ) + x, (start_y : ℚ) + y, 0⟩
              gradients := [] })) }

/-- Embedding of `Plate.closest_cell`: round and clamp each axis, then subscript the
flat list.  The source computes the flat index as
`adjusted_y * self.__size_y + adjusted_x` — with the `size_y` stride it
actually uses, not the `size_x` stride of the row-major layout. -/
def closest_cell (p : Plate) (point : Q3) : Option (ℕ × Cell) :=
  let adjusted_x0 := pyround point.x - p.start_x
  let adjusted_y0 := pyround point.y - p.start_y
  let adjusted_x := min (max adjusted_x0 0) (p.size_x - 1)
  let adjusted_y := min (max adjusted_y0 0) (p.size_y - 1)
  pyGetIdx p.cells (adjusted_y * p.size_y + adjusted_x)

/-- Embedding of `Plate.sightline_cell`: `.ok none` when the sightline is parallel to
the plate plane or the crossing lands too far from its matched cell,
`.error ()` when the `closest_cell` subscription raises, and otherwise
the single matched cell (with its flat position as identity).
`norm (coords - raw) ≤ 1.415` is embedded squared, cf. `norm_le_iff_sq_le`. -/
def sightline_cell (p : Plate) (camera keypoint : Q3) :
    Except Unit (Option (ℕ × Cell)) :=
  if camera.z = keypoint.z then .ok none
  else
    let line_direction := camera - keypoint
    let t := -keypoint.z / line_direction.z
    let raw_coords := t • line_direction + keypoint
    match closest_cell p raw_coords with
    | none => .error ()
    | some (i, cell) =>
      if dot (cell.coords - raw_coords) (cell.coords - raw_coords)
          ≤ (1.415 : ℚ) ^ 2 then .ok (some (i, cell))
      else .ok none

/-- Bridge for the squared embedding of the `<= 1.415` norm test:
for a rational squared norm `s`, `sqrt s ≤ c` iff `s ≤ c ^ 2`. -/
theorem norm_le_iff_sq_le (s c : ℚ) (hc : 0 ≤ c) :
    Real.sqrt (s : ℝ) ≤ (c : ℝ) ↔ (s : ℝ) ≤ (c : ℝ) ^ 2 :=
  Real.sqrt_le_left (by exact_mod_cast hc)

/-- One record of an encode stream: point light source, point camera,
and the frame's keypoints. -/
abbrev SceneRec := Q3 × Q3 × List Q3

/-- The staged `new_gradients` dict of `encode_plate`: insertion-ordered
association list from cell identity (flat position) to the new
gradients queued for that cell during the current call. -/
abbrev Staged := List (ℕ × List R3)

/-- Appending one gradient to the staging dict: extend an existing
entry's queue, or insert a fresh singleton queue (at the back, as a
Python dict would). -/
def stagedAdd (st : Staged) (i : ℕ) (g : R3) : Staged :=
  match st with
  | [] => [(i, [g])]
  | (j, gs) :: rest =>
    if j = i then (j, gs ++ [g]) :: rest else (j, gs) :: stagedAdd rest i g

/-- The inner `for keypoint in frame` loop of `encode_plate`: resolve
each keypoint via `sightline_cell`, silently drop misses, queue
`find_mirror source camera cell.coords` on hits, propagate the
`IndexError` of a failed subscription. -/
noncomputable def stageKeypoints (p : Plate) (source camera : Q3) :
    List Q3 → Staged → Except Unit Staged
  | [], st => .ok st
  | keypoint :: rest, st =>
    match sightline_cell p camera keypoint with
    | .error e => .error e
    | .ok none => stageKeypoints p source camera rest st
    | .ok (some (i, cell)) =>
      stageKeypoints p source camera rest
        (stagedAdd st i (find_mirror (toR source) (toR camera) (toR cell.coords)))

/-- The outer `for source, camera, frame in encoding_data` loop. -/
noncomputable def stageScenes (p : Plate) :
    List SceneRec → Staged → Except Unit Staged
  | [], st => .ok st
  | (source, camera, frame) :: rest, st =>
    match stageKeypoints p source camera frame st with
    | .error e => .error e
    | .ok st' => stageScenes p rest st'

/-- The final `cell.gradients = np.vstack(gradients)` loop: every staged
cell's gradient array is REPLACED by the queued gradients of this call
(`np.vstack` of the queue alone); unstaged cells are untouched.
`n` is the flat position of the head of `cs`. -/
def applyStaged (st : Staged) : ℕ → List Cell → List Cell
  | _, [] => []
  | n, c :: cs =>
    (match List.lookup n st with
     | some gs => { coords := c.coords, gradients := gs }
     | none => c) :: applyStaged st (n + 1) cs

/-- Embedding of `Plate.encode_plate`: stage every keypoint of every scene against
the (unmutated) plate, then resolve the queued changes.  `none` is the
propagated `IndexError` of an out-of-range `closest_cell` subscription. -/
noncomputable def encode_plate (p : Plate) (encoding_data : List SceneRec) :
    Option Plate :=
  match stageScenes p encoding_data [] with
  | .error _ => none
  | .ok staged => some { p with cells := applyStaged staged 0 p.cells }

/-- The per-cell visibility test of `decode_plate`:
`len(cell.gradients) > 0 and np.any(bulk_angle_between(expected, gradients) <= rad_tol)`. -/
noncomputable def visibleCell (source camera : Q3) (rad_tol : ℝ) (cell : Cell) :
    Prop :=
  0 < cell.gradients.length ∧ ∃ g ∈ cell.gradients,
    bulk_angle_between (find_mirror (toR source) (toR camera) (toR cell.coords)) g
      ≤ rad_tol

open Classical in
/-- Embedding of `Plate.decode_plate`: scan every cell in grid order and collect the
coordinates of those whose stored gradients contain a match for the
expected mirror normal, within `rad_tol`.  The Python default tolerance
is `0.017453` (roughly 1 degree); theorems about the default pass that
value explicitly. -/
noncomputable def decode_plate (p : Plate) (source camera : Q3)
    (rad_tol : ℝ) : List Q3 :=
  ((p.cells.filter fun cell => decide (visibleCell source camera rad_tol cell)).map
    Cell.coords)

/-- Well-formedness of a plate state, as established by `Plate.__init__`
and untouched afterwards: positive sizes, the flat cell count, and the
row-major coordinate layout (`size_x` is the row stride). -/
def Plate.WF (p : Plate) : Prop :=
  0 < p.size_x ∧ 0 < p.size_y ∧
  p.cells.length = p.size_x.toNat * p.size_y.toNat ∧
  ∀ i : Fin p.cells.length,
    (p.cells.get i).coords =
      ⟨(p.start_x : ℚ) + (i : ℕ) % p.size_x.toNat,
       (p.start_y : ℚ) + (i : ℕ) / p.size_x.toNat, 0⟩

instance (p : Plate) : Decidable p.WF := by
  unfold Plate.WF; infer_instance

/-- The gradient invariant of the spec: every stored gradient is a unit
vector or the exact zero vector. -/
def GradInv (p : Plate) : Prop :=
  ∀ cell ∈ p.cells, ∀ g ∈ cell.gradients, vnorm g = 1 ∨ g = 0

/-- The reachable plate states: a freshly constructed plate, followed by
any number of successful `encode_plate` calls. -/
inductive Reach : Plate → Prop
  | init (start_x start_y size_x size_y : ℤ) (p : Plate) :
      mkPlate start_x start_y size_x size_y = some p → Reach p
  | enc (p : Plate) (data : List SceneRec) (p' : Plate) :
      Reach p → encode_plate p data = some p' → Reach p'

/-- Componentwise dot of a vector with itself is the sum of squares. -/
theorem dot_self_nonneg (v : R3) : 0 ≤ dot v v := by
  simp only [dot]
  nlinarith [mul_self_nonneg v.x, mul_self_nonneg v.y, mul_self_nonneg v.z]

theorem dot_self_eq_zero_iff (v : R3) : dot v v = 0 ↔ v = 0 := by
  obtain ⟨x, y, z⟩ := v
  simp only [dot, Vec3.zero_def, Vec3.mk.injEq]
  constructor
  · intro h
    refine ⟨?_, ?_, ?_⟩ <;>
      nlinarith [mul_self_nonneg x, mul_self_nonneg y, mul_self_nonneg z]
  · rintro ⟨rfl, rfl, rfl⟩; ring

theorem vnorm_nonneg (v : R3) : 0 ≤ vnorm v := Real.sqrt_nonneg _

theorem vnorm_eq_zero_iff (v : R3) : vnorm v = 0 ↔ v = 0 := by
  rw [vnorm, Real.sqrt_eq_zero (dot_self_nonneg v)]
  exact dot_self_eq_zero_iff v

theorem vnorm_pos_iff (v : R3) : 0 < vnorm v ↔ v ≠ 0 := by
  rw [vnorm, Real.sqrt_pos]
  constructor
  · intro h hv
    rw [hv] at h
    simp [dot] at h
  · intro hv
    rcases (dot_self_nonneg v).lt_or_eq with h | h
    · exact h
    · exact absurd ((dot_self_eq_zero_iff v).mp h.symm) hv

theorem dot_smul_smul (c d : ℝ) (v w : R3) :
    dot (c • v) (d • w) = (c * d) * dot v w := by
  obtain ⟨a1, a2, a3⟩ := v
  obtain ⟨b1, b2, b3⟩ := w
  simp only [dot, Vec3.smul_def]
  ring

theorem unit_vector_zero : unit_vector 0 = 0 := by
  rw [unit_vector, if_neg]
  intro h
  exact absurd rfl ((vnorm_pos_iff 0).mp h)

/-- Evaluation helper: normalizing a vector whose squared norm is a
known perfect square. -/
theorem unit_vector_eval (v : R3) (m : ℝ) (hm : 0 < m) (h : dot v v = m ^ 2) :
    unit_vector v = (1 / m) • v := by
  have hn : vnorm v = m := by rw [vnorm, h, Real.sqrt_sq hm.le]
  rw [unit_vector, hn, if_pos hm]

/-- The function `unit_vector` vanishes exactly on the zero vector. -/
theorem unit_vector_eq_zero_iff (v : R3) : unit_vector v = 0 ↔ v = 0 := by
  by_cases hv : v = 0
  · constructor
    · intro _; exact hv
    · intro _; rw [hv]; exact unit_vector_zero
  · have hpos : 0 < vnorm v := (vnorm_pos_iff v).mpr hv
    rw [unit_vector, if_pos hpos]
    constructor
    · intro h
      exfalso
      apply hv
      have hs : (1 : ℝ) / vnorm v ≠ 0 := one_div_ne_zero (ne_of_gt hpos)
      obtain ⟨x, y, z⟩ := v
      simp only [Vec3.smul_def, Vec3.zero_def, Vec3.mk.injEq] at h ⊢
      refine ⟨?_, ?_, ?_⟩
      · rcases mul_eq_zero.mp h.1 with h' | h'
        · exact absurd h' hs
        · exact h'
      · rcases mul_eq_zero.mp h.2.1 with h' | h'
        · exact absurd h' hs
        · exact h'
      · rcases mul_eq_zero.mp h.2.2 with h' | h'
        · exact absurd h' hs
        · exact h'
    · intro h
      exact absurd h hv

/-- The squared norm of a nonzero `unit_vector` output is exactly 1. -/
theorem dot_unit_vector_self (v : R3) (hv : v ≠ 0) :
    dot (unit_vector v) (unit_vector v) = 1 := by
  have hd : 0 < dot v v := by
    rcases (dot_self_nonneg v).lt_or_eq with h | h
    · exact h
    · exact absurd ((dot_self_eq_zero_iff v).mp h.symm) hv
  have hpos : 0 < vnorm v := (vnorm_pos_iff v).mpr hv
  have hne : vnorm v ≠ 0 := ne_of_gt hpos
  have hsq : vnorm v * vnorm v = dot v v := by
    rw [vnorm]
    exact Real.mul_self_sqrt hd.le
  rw [unit_vector, if_pos hpos, dot_smul_smul, ← hsq]
  field_simp

/-- The norm `vnorm` of a nonzero `unit_vector` output is exactly 1. -/
theorem vnorm_unit_vector (v : R3) (hv : v ≠ 0) : vnorm (unit_vector v) = 1 := by
  rw [vnorm, dot_unit_vector_self v hv, Real.sqrt_one]

theorem vec3_add_comm (v w : R3) : v + w = w + v := by
  obtain ⟨a1, a2, a3⟩ := v
  obtain ⟨b1, b2, b3⟩ := w
  simp only [Vec3.add_def, Vec3.mk.injEq]
  exact ⟨add_comm _ _, add_comm _ _, add_comm _ _⟩

/-- The solver `find_mirror` returns a unit vector or the exact zero vector. -/
theorem find_mirror_unit_or_zero (a b m : R3) :
    vnorm (find_mirror a b m) = 1 ∨ find_mirror a b m = 0 := by
  simp only [find_mirror]
  by_cases h : unit_vector (a - m) + unit_vector (b - m) = 0
  · right; rw [h]; exact unit_vector_zero
  · left; exact vnorm_unit_vector _ h

/-- C9: `mirror_normal(a, b, m) == mirror_normal(b, a, m)` — the
mirror-normal solver is symmetric in its two endpoint arguments. -/
theorem find_mirror_symm (a b m : R3) :
    find_mirror a b m = find_mirror b a m := by
  simp only [find_mirror]
  rw [vec3_add_comm]

/-- C8: `Plate.__init__` raises `ValueError` exactly for a non-positive
`size_x` or `size_y`, and succeeds for every positive pair of sizes and
arbitrary integer origin. -/
theorem mkPlate_fails_iff_nonpositive (start_x start_y size_x size_y : ℤ) :
    mkPlate start_x start_y size_x size_y = none ↔ size_x ≤ 0 ∨ size_y ≤ 0 := by
  rw [mkPlate]
  by_cases h : size_x ≤ 0 ∨ size_y ≤ 0
  · rw [if_pos h]; simp [h]
  · rw [if_neg h]; simp [h]

/-- The plate `Plate(0, 0, 1, 1)`: one cell at the origin. -/
def plate1x1 : Plate :=
  { start_x := 0, start_y := 0, size_x := 1, size_y := 1
    cells := [{ coords := ⟨0, 0, 0⟩, gradients := [] }] }

/-- State of `plate1x1` after encoding the scene
`(source=(0,0,-1), camera=(0,0,-1), keypoints=[(0,0,1)])`: the keypoint
resolves to the origin cell and the queued mirror normal replaces the
(empty) gradient array. -/
noncomputable def plate1x1a : Plate :=
  { start_x := 0, start_y := 0, size_x := 1, size_y := 1
    cells := [{ coords := ⟨0, 0, 0⟩,
                gradients := [find_mirror (toR ⟨0, 0, -1⟩) (toR ⟨0, 0, -1⟩) (toR ⟨0, 0, 0⟩)] }] }

/-- State of `plate1x1a` after a second `encode_plate` call with the scene
`(source=(3,0,-4), camera=(3,0,-4), keypoints=[(-3,0,4)])`: the keypoint
again resolves to the origin cell, and the resolve loop REPLACES the
stored array with this call's queue alone. -/
noncomputable def plate1x1b : Plate :=
  { start_x := 0, start_y := 0, size_x := 1, size_y := 1
    cells := [{ coords := ⟨0, 0, 0⟩,
                gradients := [find_mirror (toR ⟨3, 0, -4⟩) (toR ⟨3, 0, -4⟩) (toR ⟨0, 0, 0⟩)] }] }

/-- The plate `Plate(-2, -2, 5, 5)` of the spec's concrete scenario. -/
def plate5x5 : Plate :=
  { start_x := -2, start_y := -2, size_x := 5, size_y := 5
    cells := (List.range 5).flatMap (fun y =>
          (List.range 5).map (fun x =>
            { coords := ⟨(-2 : ℚ) + x, (-2 : ℚ) + y, 0⟩
              gradients := [] })) }

theorem unit_vector_eval_001 : unit_vector (⟨0, 0, -1⟩ : R3) = ⟨0, 0, -1⟩ := by
  rw [unit_vector_eval _ 1 one_pos (by simp only [dot]; norm_num)]
  simp only [Vec3.smul_def, Vec3.mk.injEq]
  norm_num

theorem unit_vector_eval_001' : unit_vector (⟨0, 0, 1⟩ : R3) = ⟨0, 0, 1⟩ := by
  rw [unit_vector_eval _ 1 one_pos (by simp only [dot]; norm_num)]
  simp only [Vec3.smul_def, Vec3.mk.injEq]
  norm_num

theorem unit_vector_eval_304 : unit_vector (⟨3, 0, -4⟩ : R3) = ⟨3/5, 0, -4/5⟩ := by
  rw [unit_vector_eval _ 5 (by norm_num) (by simp only [dot]; norm_num)]
  simp only [Vec3.smul_def, Vec3.mk.injEq]
  norm_num

/-- With `source == camera`, the stored mirror normal is just the unit
direction from the cell to the camera. -/
theorem find_mirror_self (a m : R3) :
    find_mirror a a m = unit_vector (unit_vector (a - m) + unit_vector (a - m)) := by
  simp only [find_mirror]

theorem find_mirror_eval_a :
    find_mirror (toR ⟨0, 0, -1⟩) (toR ⟨0, 0, -1⟩) (toR ⟨0, 0, 0⟩) = toR ⟨0, 0, -1⟩ := by
  rw [find_mirror_self]
  have hsub : (toR ⟨0, 0, -1⟩ - toR ⟨0, 0, 0⟩ : R3) = ⟨0, 0, -1⟩ := by
    simp only [toR_def, Vec3.sub_def, Vec3.mk.injEq]
    norm_num
  rw [hsub, unit_vector_eval_001]
  have hsum : ((⟨0, 0, -1⟩ : R3) + ⟨0, 0, -1⟩) = (⟨0, 0, -2⟩ : R3) := by
    simp only [Vec3.add_def, Vec3.mk.injEq]
    norm_num
  rw [hsum, unit_vector_eval _ 2 (by norm_num) (by simp only [dot]; norm_num)]
  simp only [Vec3.smul_def, toR_def, Vec3.mk.injEq]
  norm_num

theorem find_mirror_eval_b :
    find_mirror (toR ⟨3, 0, -4⟩) (toR ⟨3, 0, -4⟩) (toR ⟨0, 0, 0⟩) = toR ⟨3/5, 0, -4/5⟩ := by
  rw [find_mirror_self]
  have hsub : (toR ⟨3, 0, -4⟩ - toR ⟨0, 0, 0⟩ : R3) = ⟨3, 0, -4⟩ := by
    simp only [toR_def, Vec3.sub_def, Vec3.mk.injEq]
    norm_num
  rw [hsub, unit_vector_eval_304]
  have hsum : ((⟨3/5, 0, -4/5⟩ : R3) + ⟨3/5, 0, -4/5⟩) = (⟨6/5, 0, -8/5⟩ : R3) := by
    simp only [Vec3.add_def, Vec3.mk.injEq]
    norm_num
  rw [hsum, unit_vector_eval _ 2 (by norm_num) (by simp only [dot]; norm_num)]
  simp only [Vec3.smul_def, toR_def, Vec3.mk.injEq]
  norm_num

/-- The degenerate mirror normal: source and camera on opposite sides of
the mirror point along one line make the two unit directions cancel. -/
theorem find_mirror_eval_zero :
    find_mirror (toR ⟨0, 0, 1⟩) (toR ⟨0, 0, -1⟩) (toR ⟨0, 0, 0⟩) = 0 := by
  simp only [find_mirror]
  have hsub1 : (toR ⟨0, 0, 1⟩ - toR ⟨0, 0, 0⟩ : R3) = ⟨0, 0, 1⟩ := by
    simp only [toR_def, Vec3.sub_def, Vec3.mk.injEq]
    norm_num
  have hsub2 : (toR ⟨0, 0, -1⟩ - toR ⟨0, 0, 0⟩ : R3) = ⟨0, 0, -1⟩ := by
    simp only [toR_def, Vec3.sub_def, Vec3.mk.injEq]
    norm_num
  rw [hsub1, hsub2, unit_vector_eval_001', unit_vector_eval_001]
  have hsum : ((⟨0, 0, 1⟩ : R3) + ⟨0, 0, -1⟩) = (0 : R3) := by
    simp only [Vec3.add_def, Vec3.zero_def, Vec3.mk.injEq]
    norm_num
  rw [hsum]
  exact unit_vector_zero

/-- C1 (code bug): `encode_plate` is NOT additive across calls.  On
`Plate(0,0,1,1)`, a first call stores the gradient `(0,0,-1)` at the
origin cell; a second call whose keypoint resolves to the same cell
leaves the cell with ONLY the new gradient `(3/5,0,-4/5)` — the resolve
loop `cell.gradients = np.vstack(gradients)` replaces the stored array
with the current call's queue instead of appending to it. -/
theorem encode_overwrites_previous_gradients :
    encode_plate plate1x1 [(⟨0, 0, -1⟩, ⟨0, 0, -1⟩, [⟨0, 0, 1⟩])] = some plate1x1a ∧
    plate1x1a.cells.map Cell.gradients = [[toR ⟨0, 0, -1⟩]] ∧
    encode_plate plate1x1a [(⟨3, 0, -4⟩, ⟨3, 0, -4⟩, [⟨-3, 0, 4⟩])] = some plate1x1b ∧
    plate1x1b.cells.map Cell.gradients = [[toR ⟨3/5, 0, -4/5⟩]] ∧
    toR ⟨0, 0, -1⟩ ∉ [toR ⟨3/5, 0, -4/5⟩] := by
  refine ⟨by with_unfolding_all rfl, ?_, by with_unfolding_all rfl, ?_, ?_⟩
  · simp only [plate1x1a, List.map, find_mirror_eval_a]
  · simp only [plate1x1b, List.map, find_mirror_eval_b]
  · simp only [List.mem_singleton, toR_def, Vec3.mk.injEq, not_and]
    intro h
    exfalso
    have : (0 : ℚ) = 3/5 := by exact_mod_cast h
    norm_num at this

/-- C2 (code bug): `closest_cell` computes the flat index with stride
`size_y` instead of the row-major stride `size_x`.  On
`Plate(0,0,1,2)` the point `(0,1,0)` yields index `1*2+0 = 2` into a
2-cell list — an `IndexError` — where the claim's formula gives index
`1*1+0 = 1`.  On `Plate(0,0,3,2)` the same point yields index
`1*2+0 = 2`, the cell with coords `(2,0,0)`, where the claim's formula
gives index `1*3+0 = 3`, whose cell (third conjunct) has the expected
coords `(0,1,0)`. -/
theorem closest_cell_stride_bug :
    (mkPlate 0 0 1 2).map (fun p => closest_cell p ⟨0, 1, 0⟩) = some none ∧
    (mkPlate 0 0 3 2).map
        (fun p => (closest_cell p ⟨0, 1, 0⟩).map (fun ic => ic.2.coords))
      = some (some ⟨2, 0, 0⟩) ∧
    (mkPlate 0 0 3 2).map (fun p => (p.cells.get? 3).map Cell.coords)
      = some (some ⟨0, 1, 0⟩) := by
  refine ⟨?_, ?_, ?_⟩ <;> with_unfolding_all rfl

/-- C6 counterexample: the sightline cutoff is `1.415`, not `sqrt 2`,
and `sightline_cell` can raise.  First: on `Plate(0,0,1,1)` a vertical
sightline crossing at `(1.415, 0, 0)` is at squared distance
`2.002225 > 2` from the matched cell `(0,0,0)` — strictly beyond
`sqrt 2` — yet the cell is returned.  Second: on `Plate(0,0,1,2)`
(`size_y > size_x`) the crossing `(0,1,0)` makes the buggy flat index
overrun the cell list and the subscription raises `IndexError` instead
of returning a cell or "no cell". -/
theorem sightline_threshold_and_crash :
    (sightline_cell plate1x1 ⟨283/200, 0, -1⟩ ⟨283/200, 0, 1⟩
        = .ok (some (0, { coords := ⟨0, 0, 0⟩, gradients := [] })) ∧
      (2 : ℚ) < dot ((⟨0, 0, 0⟩ : Q3) - ⟨283/200, 0, 0⟩) ((⟨0, 0, 0⟩ : Q3) - ⟨283/200, 0, 0⟩)) ∧
    (mkPlate 0 0 1 2).map (fun p => sightline_cell p ⟨0, 1, -1⟩ ⟨0, 1, 1⟩)
      = some (.error ()) := by
  refine ⟨⟨?_, ?_⟩, ?_⟩
  · with_unfolding_all rfl
  · simp only [dot, Vec3.sub_def]
    norm_num
  · with_unfolding_all rfl

theorem mem_decode_plate (p : Plate) (s c : Q3) (tol : ℝ) (q : Q3) :
    q ∈ decode_plate p s c tol ↔
      ∃ cell ∈ p.cells, visibleCell s c tol cell ∧ cell.coords = q := by
  rw [decode_plate]
  simp only [List.mem_map, List.mem_filter, decide_eq_true_eq]
  constructor
  · rintro ⟨cell, ⟨hc, hv⟩, rfl⟩
    exact ⟨cell, hc, hv, rfl⟩
  · rintro ⟨cell, hc, hv, rfl⟩
    exact ⟨cell, ⟨hc, hv⟩, rfl⟩

/-- A plate all of whose cells store no gradients decodes to the empty
list, for every perspective and tolerance. -/
theorem decode_plate_eq_nil (p : Plate) (s c : Q3) (tol : ℝ)
    (h : ∀ cell ∈ p.cells, cell.gradients = []) :
    decode_plate p s c tol = [] := by
  rw [decode_plate]
  rw [List.map_eq_nil_iff, List.filter_eq_nil_iff]
  intro cell hc
  simp only [decide_eq_true_eq, visibleCell]
  rintro ⟨hlen, -⟩
  rw [h cell hc] at hlen
  simp at hlen

/-- Construction leaves every cell's gradient array empty. -/
theorem mkPlate_gradients_nil (sx sy nx ny : ℤ) (p : Plate)
    (h : mkPlate sx sy nx ny = some p) : ∀ cell ∈ p.cells, cell.gradients = [] := by
  rw [mkPlate] at h
  split_ifs at h
  rw [Option.some.injEq] at h
  subst h
  intro cell hc
  simp only [List.mem_flatMap, List.mem_map, List.mem_range] at hc
  obtain ⟨y, -, x, -, hx⟩ := hc
  rw [← hx]

theorem mkPlate_plate5x5 : mkPlate (-2) (-2) 5 5 = some plate5x5 := by
  with_unfolding_all rfl

theorem mkPlate_plate1x1 : mkPlate 0 0 1 1 = some plate1x1 := by
  with_unfolding_all rfl

/-- C3 counterexample: in the spec's concrete scenario the keypoint
`(0,0,5)` seen from camera `(50,0,-50)` does NOT resolve to cell
`(0,0,0)` — nothing is engraved, and decoding with the same
`(source, camera)` at the default tolerance returns `[]`, not
`[(0,0,0)]`. -/
theorem spec_scenario_decodes_empty :
    sightline_cell plate5x5 ⟨50, 0, -50⟩ ⟨0, 0, 5⟩ = .ok none ∧
    encode_plate plate5x5 [(⟨50, 0, -50⟩, ⟨50, 0, -50⟩, [⟨0, 0, 5⟩])] = some plate5x5 ∧
    decode_plate plate5x5 ⟨50, 0, -50⟩ ⟨50, 0, -50⟩ 0.017453 = [] ∧
    ([] : List Q3) ≠ [⟨0, 0, 0⟩] := by
  refine ⟨by with_unfolding_all rfl, by with_unfolding_all rfl, ?_, by simp⟩
  exact decode_plate_eq_nil _ _ _ _ (mkPlate_gradients_nil _ _ _ _ _ mkPlate_plate5x5)

/-- C3 amended: the spec scenario, as the code actually behaves.  The
sightline from camera `(50,0,-50)` through `(0,0,5)` crosses the plane
`z = 0` at `(50/11, 0, 0)` — not at the origin — which lies more than
`1.415` from its matched cell, so the keypoint resolves to no cell and
the encode is a no-op; decoding with the same `(source, camera)` at the
default tolerance returns `[]`, and decoding from the 90-degree-rotated
perspective `(-50,0,-50)` also returns `[]`. -/
theorem spec_scenario_corrected :
    (1/11 : ℚ) • ((⟨50, 0, -50⟩ : Q3) - ⟨0, 0, 5⟩) + ⟨0, 0, 5⟩ = ⟨50/11, 0, 0⟩ ∧
    (⟨50/11, 0, 0⟩ : Q3) ≠ ⟨0, 0, 0⟩ ∧
    sightline_cell plate5x5 ⟨50, 0, -50⟩ ⟨0, 0, 5⟩ = .ok none ∧
    encode_plate plate5x5 [(⟨50, 0, -50⟩, ⟨50, 0, -50⟩, [⟨0, 0, 5⟩])] = some plate5x5 ∧
    decode_plate plate5x5 ⟨50, 0, -50⟩ ⟨50, 0, -50⟩ 0.017453 = [] ∧
    decode_plate plate5x5 ⟨-50, 0, -50⟩ ⟨-50, 0, -50⟩ 0.017453 = [] := by
  have hnil := mkPlate_gradients_nil _ _ _ _ _ mkPlate_plate5x5
  refine ⟨by with_unfolding_all rfl, by with_unfolding_all decide,
         by with_unfolding_all rfl, by with_unfolding_all rfl,
         decode_plate_eq_nil _ _ _ _ hnil, decode_plate_eq_nil _ _ _ _ hnil⟩

theorem dot_zero_right (g : R3) : dot g 0 = 0 := by
  obtain ⟨a, b, c⟩ := g
  simp [dot]

theorem clip_zero : clip 0 = 0 := by
  rw [clip]
  norm_num

theorem clip_one : clip 1 = 1 := by
  rw [clip]
  norm_num

/-- Against a zero query vector the angle formula always yields π/2:
`arccos (clip (dot g 0)) = arccos 0`. -/
theorem bulk_angle_between_zero_query (g : R3) :
    bulk_angle_between 0 g = Real.pi / 2 := by
  rw [bulk_angle_between, dot_zero_right, clip_zero, Real.arccos_zero]

/-- The angle between a stored unit gradient and itself is exactly 0. -/
theorem bulk_angle_between_self (g : R3) (h : dot g g = 1) :
    bulk_angle_between g g = 0 := by
  rw [bulk_angle_between, h, clip_one, Real.arccos_one]

/-- The product `dot` of a nonzero `find_mirror` output with itself is 1. -/
theorem dot_find_mirror_self (a b m : R3) (h : find_mirror a b m ≠ 0) :
    dot (find_mirror a b m) (find_mirror a b m) = 1 := by
  simp only [find_mirror] at h ⊢
  apply dot_unit_vector_self
  intro hw
  apply h
  rw [hw]
  exact unit_vector_zero

/-- A 1x1 plate state holding one non-zero unit gradient at its origin
cell (an arbitrary, not necessarily reachable, plate state). -/
noncomputable def plateC5 : Plate :=
  { start_x := 0, start_y := 0, size_x := 1, size_y := 1
    cells := [{ coords := ⟨0, 0, 0⟩, gradients := [toR ⟨0, 0, -1⟩] }] }

/-- C5 counterexample: at a tolerance of `2` radians (≥ π/2) a cell
whose expected mirror normal is the zero vector IS decoded as visible,
because `arccos (clip (dot g 0)) = π/2 ≤ 2` — so "for every angle
tolerance" is false; the exclusion only holds for tolerances below π/2. -/
theorem zero_expected_matches_at_large_tolerance :
    find_mirror (toR ⟨0, 0, 1⟩) (toR ⟨0, 0, -1⟩) (toR ⟨0, 0, 0⟩) = 0 ∧
    toR ⟨0, 0, -1⟩ ≠ (0 : R3) ∧
    (⟨0, 0, 0⟩ : Q3) ∈ decode_plate plateC5 ⟨0, 0, 1⟩ ⟨0, 0, -1⟩ 2 := by
  refine ⟨find_mirror_eval_zero, ?_, ?_⟩
  · intro h
    have hz := congrArg Vec3.z h
    simp only [toR_def, Vec3.zero_def] at hz
    norm_num at hz
  · rw [mem_decode_plate]
    refine ⟨{ coords := ⟨0, 0, 0⟩, gradients := [toR ⟨0, 0, -1⟩] }, ?_, ⟨?_, ?_⟩, rfl⟩
    · simp [plateC5]
    · simp
    · refine ⟨toR ⟨0, 0, -1⟩, by simp, ?_⟩
      rw [find_mirror_eval_zero, bulk_angle_between_zero_query]
      have h4 := Real.pi_le_four
      linarith

/-- C5 (amended): for every tolerance BELOW π/2, a cell whose expected
mirror normal `find_mirror source camera coords` is the zero vector is
never part of the decode output, whatever gradients cells store: the
angle of any stored gradient against the zero query is exactly π/2. -/
theorem zero_expected_never_decoded
    (p : Plate) (source camera : Q3) (rad_tol : ℝ) (q : Q3)
    (htol : rad_tol < Real.pi / 2)
    (hzero : find_mirror (toR source) (toR camera) (toR q) = 0) :
    q ∉ decode_plate p source camera rad_tol := by
  intro hq
  rw [mem_decode_plate] at hq
  obtain ⟨cell, -, ⟨-, g, -, hang⟩, hcoords⟩ := hq
  rw [hcoords, hzero, bulk_angle_between_zero_query] at hang
  linarith

/-- Variant on the visibility predicate itself, shared by the proofs
about degenerate expected normals. -/
theorem not_visible_of_zero_expected (s c : Q3) (tol : ℝ) (cell : Cell)
    (htol : tol < Real.pi / 2)
    (hzero : find_mirror (toR s) (toR c) (toR cell.coords) = 0) :
    ¬ visibleCell s c tol cell := by
  rintro ⟨-, g, -, hang⟩
  rw [hzero, bulk_angle_between_zero_query] at hang
  linarith

theorem default_tol_lt_half_pi : (0.017453 : ℝ) < Real.pi / 2 := by
  have h3 := Real.pi_gt_three
  norm_num
  linarith

/-- Witness for C5: the degenerate perspective
`source=(0,0,1), camera=(0,0,-1)` has zero expected normal at the
origin cell, and at the default tolerance the cell is not decoded even
though it stores a non-zero gradient. -/
theorem zero_expected_never_decoded_witness :
    (⟨0, 0, 0⟩ : Q3) ∉ decode_plate plateC5 ⟨0, 0, 1⟩ ⟨0, 0, -1⟩ 0.017453 :=
  zero_expected_never_decoded plateC5 ⟨0, 0, 1⟩ ⟨0, 0, -1⟩ 0.017453 ⟨0, 0, 0⟩
    default_tol_lt_half_pi find_mirror_eval_zero

theorem pyGetIdx_some (l : List Cell) (idx : ℤ) (i : ℕ) (c : Cell)
    (h : pyGetIdx l idx = some (i, c)) : l.get? i = some c := by
  simp only [pyGetIdx] at h
  split_ifs at h <;>
  · rw [Option.map_eq_some'] at h
    obtain ⟨a, ha, hpair⟩ := h
    rw [Prod.mk.injEq] at hpair
    rw [← hpair.1, ha, hpair.2]

theorem closest_cell_get? (p : Plate) (pt : Q3) (i : ℕ) (c : Cell)
    (h : closest_cell p pt = some (i, c)) : p.cells.get? i = some c := by
  simp only [closest_cell] at h
  exact pyGetIdx_some _ _ _ _ h

theorem sightline_cell_get? (p : Plate) (cam kp : Q3) (i : ℕ) (c : Cell)
    (h : sightline_cell p cam kp = .ok (some (i, c))) :
    p.cells.get? i = some c := by
  simp only [sightline_cell] at h
  split_ifs at h
  · cases h
  · split at h
    · cases h
    · next j cc hc =>
      split_ifs at h
      · rw [Except.ok.injEq, Option.some.injEq] at h
        obtain ⟨h1, h2⟩ := Prod.mk.injEq .. ▸ h
        subst h1
        subst h2
        exact closest_cell_get? p _ _ _ hc
      · cases h

theorem applyStaged_length (st : Staged) (cs : List Cell) (n : ℕ) :
    (applyStaged st n cs).length = cs.length := by
  induction cs generalizing n with
  | nil => rfl
  | cons c cs ih => simp [applyStaged, ih]

/-- The resolve loop, observed through indexed lookup: cell `k` of the
result is cell `k` of the input, with its gradients replaced by the
staged queue when the staging dict has an entry for it. -/
theorem applyStaged_get? (st : Staged) (cs : List Cell) (n k : ℕ) :
    (applyStaged st n cs).get? k = (cs.get? k).map (fun c =>
      match List.lookup (n + k) st with
      | some gs => { coords := c.coords, gradients := gs }
      | none => c) := by
  induction cs generalizing n k with
  | nil => simp [applyStaged]
  | cons c cs ih =>
    cases k with
    | zero => simp [applyStaged]
    | succ k =>
      simp only [applyStaged, List.get?_cons_succ, ih]
      have : n + (k + 1) = (n + 1) + k := by omega
      rw [this]

theorem list_lookup_singleton (i : ℕ) (gs : List R3) :
    List.lookup i [(i, gs)] = some gs := by
  simp [List.lookup]

/-- C4 (amended): the round trip holds whenever the keypoint resolves to
a cell AND the expected mirror normal at that cell is not the zero
vector: encoding the single scene and decoding with the same
`(source, camera)` at the default tolerance returns a collection
containing the cell's coordinates.  (Without the non-degeneracy
hypothesis the claim is false, see the counterexample.) -/
theorem roundtrip_encode_decode
    (p : Plate) (source camera keypoint : Q3) (i : ℕ) (cell : Cell)
    (hres : sightline_cell p camera keypoint = .ok (some (i, cell)))
    (hnz : find_mirror (toR source) (toR camera) (toR cell.coords) ≠ 0) :
    ∃ p', encode_plate p [(source, camera, [keypoint])] = some p' ∧
      cell.coords ∈ decode_plate p' source camera 0.017453 := by
  set g := find_mirror (toR source) (toR camera) (toR cell.coords) with hg
  have hstage : stageScenes p [(source, camera, [keypoint])] [] = .ok [(i, [g])] := by
    simp only [stageScenes, stageKeypoints, hres, stagedAdd]
  refine ⟨_, by rw [encode_plate, hstage], ?_⟩
  rw [mem_decode_plate]
  have hget : (applyStaged [(i, [g])] 0 p.cells).get? i
      = some { coords := cell.coords, gradients := [g] } := by
    rw [applyStaged_get?, sightline_cell_get? p camera keypoint i cell hres]
    simp only [Option.map_some', Nat.zero_add, list_lookup_singleton]
  refine ⟨{ coords := cell.coords, gradients := [g] }, List.get?_mem hget, ⟨?_, ?_⟩, rfl⟩
  · simp
  · refine ⟨g, by simp, ?_⟩
    rw [hg, bulk_angle_between_self]
    · norm_num
    · exact dot_find_mirror_self _ _ _ hnz

/-- State of `plate1x1` after encoding the degenerate scene
`(source=(0,0,1), camera=(0,0,-1), keypoints=[(0,0,1)])`: the keypoint
resolves to the origin cell but the queued mirror normal is the zero
vector (source and camera sit on opposite sides of the cell). -/
noncomputable def cellZ : Cell :=
  { coords := ⟨0, 0, 0⟩
    gradients := [find_mirror (toR ⟨0, 0, 1⟩) (toR ⟨0, 0, -1⟩) (toR ⟨0, 0, 0⟩)] }

noncomputable def plate1x1z : Plate :=
  { start_x := 0, start_y := 0, size_x := 1, size_y := 1
    cells := [cellZ] }

/-- C4 counterexample: the round trip fails for a keypoint that DOES
resolve to a cell when the scene's mirror geometry is degenerate.  With
`source=(0,0,1)`, `camera=(0,0,-1)`, `keypoint=(0,0,1)` on
`Plate(0,0,1,1)` the keypoint resolves to cell `(0,0,0)`, encoding
stores the zero gradient, and decoding with the same source and camera
at the default tolerance does NOT contain the cell's coordinates. -/
theorem roundtrip_fails_on_degenerate :
    sightline_cell plate1x1 ⟨0, 0, -1⟩ ⟨0, 0, 1⟩
      = .ok (some (0, { coords := ⟨0, 0, 0⟩, gradients := [] })) ∧
    encode_plate plate1x1 [(⟨0, 0, 1⟩, ⟨0, 0, -1⟩, [⟨0, 0, 1⟩])] = some plate1x1z ∧
    (⟨0, 0, 0⟩ : Q3) ∉ decode_plate plate1x1z ⟨0, 0, 1⟩ ⟨0, 0, -1⟩ 0.017453 := by
  refine ⟨by with_unfolding_all rfl, by with_unfolding_all rfl, ?_⟩
  intro hq
  rw [mem_decode_plate] at hq
  obtain ⟨cell, hc, hv, -⟩ := hq
  have hcell : cell = cellZ := by
    simpa [plate1x1z] using hc
  apply not_visible_of_zero_expected ⟨0, 0, 1⟩ ⟨0, 0, -1⟩ 0.017453 cell
      default_tol_lt_half_pi _ hv
  rw [hcell]
  exact find_mirror_eval_zero

/-- Witness for C4: on `Plate(0,0,1,1)` with
`source = camera = (0,0,-1)` and keypoint `(0,0,1)`, the keypoint
resolves to the origin cell, the expected normal `(0,0,-1)` is nonzero,
and the encoded cell decodes back. -/
theorem roundtrip_encode_decode_witness :
    ∃ p', encode_plate plate1x1 [(⟨0, 0, -1⟩, ⟨0, 0, -1⟩, [⟨0, 0, 1⟩])] = some p' ∧
      (⟨0, 0, 0⟩ : Q3) ∈ decode_plate p' ⟨0, 0, -1⟩ ⟨0, 0, -1⟩ 0.017453 := by
  have h := roundtrip_encode_decode plate1x1 ⟨0, 0, -1⟩ ⟨0, 0, -1⟩ ⟨0, 0, 1⟩ 0
    { coords := ⟨0, 0, 0⟩, gradients := [] }
    (by with_unfolding_all rfl)
    (by rw [find_mirror_eval_a]
        intro hz
        have := congrArg Vec3.z hz
        simp only [toR_def, Vec3.zero_def] at this
        norm_num at this)
  exact h

/-- All gradient queues in a staging dict are unit-or-zero vectors. -/
def StagedInv (st : Staged) : Prop :=
  ∀ pr ∈ st, ∀ g ∈ pr.2, vnorm g = 1 ∨ g = 0

theorem lookup_mem (st : Staged) (k : ℕ) (gs : List R3)
    (h : List.lookup k st = some gs) : (k, gs) ∈ st := by
  induction st with
  | nil => cases h
  | cons pr rest ih =>
    obtain ⟨j, gs'⟩ := pr
    simp only [List.lookup] at h
    split at h
    · next hkj =>
      rw [Option.some.injEq] at h
      subst h
      have : k = j := eq_of_beq hkj
      subst this
      exact List.mem_cons_self _ _
    · exact List.mem_cons_of_mem _ (ih h)

theorem stagedAdd_inv (st : Staged) (i : ℕ) (g : R3)
    (hst : StagedInv st) (hgl : vnorm g = 1 ∨ g = 0) :
    StagedInv (stagedAdd st i g) := by
  induction st with
  | nil =>
    rintro pr hpr g' hg'
    simp only [stagedAdd, List.mem_singleton] at hpr
    subst hpr
    simp only [List.mem_singleton] at hg'
    subst hg'
    exact hgl
  | cons hd rest ih =>
    obtain ⟨j, gs⟩ := hd
    rw [stagedAdd]
    split_ifs with hj
    · rintro pr hpr g' hg'
      rw [List.mem_cons] at hpr
      rcases hpr with hpr | hpr
      · subst hpr
        simp only [List.mem_append, List.mem_singleton] at hg'
        rcases hg' with hg' | hg'
        · exact hst (j, gs) (List.mem_cons_self _ _) g' hg'
        · subst hg'
          exact hgl
      · exact hst pr (List.mem_cons_of_mem _ hpr) g' hg'
    · rintro pr hpr g' hg'
      rw [List.mem_cons] at hpr
      rcases hpr with hpr | hpr
      · subst hpr
        exact hst (j, gs) (List.mem_cons_self _ _) g' hg'
      · exact ih (fun q hq => hst q (List.mem_cons_of_mem _ hq)) pr hpr g' hg'

theorem stageKeypoints_inv (p : Plate) (s c : Q3) (kps : List Q3)
    (st st' : Staged)
    (h : stageKeypoints p s c kps st = .ok st') (hst : StagedInv st) :
    StagedInv st' := by
  induction kps generalizing st with
  | nil =>
    rw [stageKeypoints, Except.ok.injEq] at h
    subst h
    exact hst
  | cons kp rest ih =>
    rw [stageKeypoints] at h
    split at h
    · cases h
    · exact ih st h hst
    · exact ih _ h (stagedAdd_inv _ _ _ hst (find_mirror_unit_or_zero _ _ _))

theorem stageScenes_inv (p : Plate) (data : List SceneRec) (st st' : Staged)
    (h : stageScenes p data st = .ok st') (hst : StagedInv st) :
    StagedInv st' := by
  induction data generalizing st with
  | nil =>
    rw [stageScenes, Except.ok.injEq] at h
    subst h
    exact hst
  | cons sc rest ih =>
    obtain ⟨s, c, frame⟩ := sc
    rw [stageScenes] at h
    split at h
    · cases h
    · next st1 hst1 =>
      exact ih _ h (stageKeypoints_inv p s c frame st st1 hst1 hst)

theorem applyStaged_mem (st : Staged) (cs : List Cell) (n : ℕ) (cell : Cell)
    (h : cell ∈ applyStaged st n cs) :
    cell ∈ cs ∨ ∃ pr ∈ st, cell.gradients = pr.2 := by
  induction cs generalizing n with
  | nil => cases h
  | cons c rest ih =>
    rw [applyStaged, List.mem_cons] at h
    rcases h with h | h
    · rcases hl : List.lookup n st with _ | gs
      · rw [hl] at h
        left
        rw [h]
        exact List.mem_cons_self _ _
      · rw [hl] at h
        right
        exact ⟨(n, gs), lookup_mem _ _ _ hl, by rw [h]⟩
    · rcases ih _ h with h' | h'
      · left
        exact List.mem_cons_of_mem _ h'
      · right
        exact h'

/-- C7: every reachable plate state — a constructed plate followed by
any sequence of successful `encode_plate` calls — satisfies the gradient
invariant: every stored gradient is a unit vector or the exact zero
vector, because `find_mirror` only produces such vectors. -/
theorem gradient_unit_invariant : ∀ p : Plate, Reach p → GradInv p := by
  intro p hp
  induction hp with
  | init sx sy nx ny p h =>
    intro cell hc g hg
    rw [mkPlate_gradients_nil _ _ _ _ _ h cell hc] at hg
    cases hg
  | enc p data p' hreach henc ih =>
    rw [encode_plate] at henc
    split at henc
    · cases henc
    · next st hst =>
      rw [Option.some.injEq] at henc
      subst henc
      intro cell hc g hg
      rcases applyStaged_mem st p.cells 0 cell hc with h' | ⟨pr, hpr, hgr⟩
      · exact ih cell h' g hg
      · rw [hgr] at hg
        exact stageScenes_inv p data [] st hst (by rintro pr ⟨⟩) pr hpr g hg

/-- Witness for C7: the state reached by constructing `Plate(0,0,1,1)`
and encoding one scene satisfies the gradient invariant. -/
theorem gradient_unit_invariant_witness : GradInv plate1x1a :=
  gradient_unit_invariant plate1x1a
    (Reach.enc plate1x1 [(⟨0, 0, -1⟩, ⟨0, 0, -1⟩, [⟨0, 0, 1⟩])] plate1x1a
      (Reach.init 0 0 1 1 plate1x1 mkPlate_plate1x1)
      (by with_unfolding_all rfl))

theorem applyStaged_empty (cs : List Cell) (n : ℕ) : applyStaged [] n cs = cs := by
  induction cs generalizing n with
  | nil => rfl
  | cons c rest ih =>
    rw [applyStaged]
    simp only [List.lookup]
    rw [ih]

theorem lookup_stagedAdd_ne (st : Staged) (j i : ℕ) (g : R3) (hne : i ≠ j) :
    List.lookup i (stagedAdd st j g) = List.lookup i st := by
  have hbeq : (i == j) = false := beq_eq_false_iff_ne.mpr hne
  induction st with
  | nil =>
    simp only [stagedAdd, List.lookup, hbeq]
  | cons pr rest ih =>
    obtain ⟨k, gs⟩ := pr
    rw [stagedAdd]
    split_ifs with hk
    · subst hk
      simp only [List.lookup, hbeq]
    · simp only [List.lookup]
      split
      · rfl
      · exact ih

theorem stageKeypoints_lookup (p : Plate) (s c : Q3) (kps : List Q3)
    (st st' : Staged) (i : ℕ)
    (h : stageKeypoints p s c kps st = .ok st')
    (hnone : ∀ kp ∈ kps, ∀ cell : Cell,
      sightline_cell p c kp ≠ .ok (some (i, cell))) :
    List.lookup i st' = List.lookup i st := by
  induction kps generalizing st with
  | nil =>
    rw [stageKeypoints, Except.ok.injEq] at h
    subst h
    rfl
  | cons kp rest ih =>
    rw [stageKeypoints] at h
    split at h
    · cases h
    · exact ih st h (fun kp' hk' => hnone kp' (List.mem_cons_of_mem _ hk'))
    · next j cell hs =>
      have hij : i ≠ j := by
        intro he
        subst he
        exact hnone kp (List.mem_cons_self _ _) cell hs
      rw [ih _ h (fun kp' hk' => hnone kp' (List.mem_cons_of_mem _ hk')),
        lookup_stagedAdd_ne _ _ _ _ hij]

theorem stageScenes_lookup (p : Plate) (data : List SceneRec)
    (st st' : Staged) (i : ℕ)
    (h : stageScenes p data st = .ok st')
    (hnone : ∀ sc ∈ data, ∀ kp ∈ sc.2.2, ∀ cell : Cell,
      sightline_cell p sc.2.1 kp ≠ .ok (some (i, cell))) :
    List.lookup i st' = List.lookup i st := by
  induction data generalizing st with
  | nil =>
    rw [stageScenes, Except.ok.injEq] at h
    subst h
    rfl
  | cons sc rest ih =>
    obtain ⟨s, c, frame⟩ := sc
    rw [stageScenes] at h
    split at h
    · cases h
    · next st1 hst1 =>
      rw [ih _ h (fun sc' hs' => hnone sc' (List.mem_cons_of_mem _ hs')),
        stageKeypoints_lookup p s c frame st st1 i hst1
          (fun kp hk cell => hnone (s, c, frame) (List.mem_cons_self _ _) kp hk cell)]

/-- C10: the implicit frame property of a (successful) `encode_plate`
call.  An empty stream is a strict no-op, and any cell to which no
keypoint of the stream resolves keeps exactly its previous contents. -/
theorem encode_frame_effect :
    (∀ p : Plate, encode_plate p [] = some p) ∧
    (∀ (p : Plate) (data : List SceneRec) (p' : Plate),
      encode_plate p data = some p' →
      ∀ i : ℕ,
        (∀ sc ∈ data, ∀ kp ∈ sc.2.2, ∀ cell : Cell,
          sightline_cell p sc.2.1 kp ≠ .ok (some (i, cell))) →
        p'.cells.get? i = p.cells.get? i) := by
  constructor
  · intro p
    rw [encode_plate]
    have h0 : stageScenes p [] [] = .ok [] := rfl
    rw [h0]
    show some { p with cells := applyStaged [] 0 p.cells } = some p
    rw [applyStaged_empty]
  · intro p data p' henc i hnone
    rw [encode_plate] at henc
    split at henc
    · cases henc
    · next st hst =>
      rw [Option.some.injEq] at henc
      subst henc
      have hlk : List.lookup i st = none :=
        stageScenes_lookup p data [] st i hst hnone
      simp only [applyStaged_get?, Nat.zero_add, hlk]
      rcases p.cells.get? i with _ | c
      · rfl
      · rfl

/-- The plate `Plate(0, 0, 2, 1)`: two cells in one row. -/
def plate2x1 : Plate :=
  { start_x := 0, start_y := 0, size_x := 2, size_y := 1
    cells := [{ coords := ⟨0, 0, 0⟩, gradients := [] },
              { coords := ⟨1, 0, 0⟩, gradients := [] }] }

/-- State of `plate2x1` after an encode whose only keypoint resolves to cell 1. -/
noncomputable def plate2x1e : Plate :=
  { start_x := 0, start_y := 0, size_x := 2, size_y := 1
    cells := [{ coords := ⟨0, 0, 0⟩, gradients := [] },
              { coords := ⟨1, 0, 0⟩,
                gradients := [find_mirror (toR ⟨1, 0, -1⟩) (toR ⟨1, 0, -1⟩) (toR ⟨1, 0, 0⟩)] }] }

/-- Witness for C10: one scene whose keypoint resolves to cell 1 of
`Plate(0,0,2,1)` leaves cell 0 exactly unchanged. -/
theorem encode_frame_effect_witness :
    encode_plate plate2x1 [(⟨1, 0, -1⟩, ⟨1, 0, -1⟩, [⟨1, 0, 1⟩])] = some plate2x1e ∧
    plate2x1e.cells.get? 0 = plate2x1.cells.get? 0 := by
  have hsig : sightline_cell plate2x1 ⟨1, 0, -1⟩ ⟨1, 0, 1⟩
      = .ok (some (1, { coords := ⟨1, 0, 0⟩, gradients := [] })) := by
    with_unfolding_all rfl
  refine ⟨by with_unfolding_all rfl, ?_⟩
  apply encode_frame_effect.2 plate2x1 [(⟨1, 0, -1⟩, ⟨1, 0, -1⟩, [⟨1, 0, 1⟩])] plate2x1e
    (by with_unfolding_all rfl) 0
  intro sc hsc kp hkp cell h
  rw [List.mem_singleton] at hsc
  subst hsc
  simp only [List.mem_singleton] at hkp
  subst hkp
  rw [hsig] at h
  rw [Except.ok.injEq, Option.some.injEq, Prod.mk.injEq] at h
  exact absurd h.1 one_ne_zero

/-- Under well-formedness and `size_y ≤ size_x`, the (buggy-stride)
flat index of `closest_cell` stays in range, so the subscription always
finds a cell. -/
theorem closest_cell_isSome (p : Plate) (hwf : p.WF) (hyx : p.size_y ≤ p.size_x)
    (pt : Q3) : ∃ i cell, closest_cell p pt = some (i, cell) := by
  obtain ⟨hx, hy, hlen, -⟩ := hwf
  simp only [closest_cell, pyGetIdx]
  set ax : ℤ := min (max (pyround pt.x - p.start_x) 0) (p.size_x - 1) with hax
  set ay : ℤ := min (max (pyround pt.y - p.start_y) 0) (p.size_y - 1) with hay
  have hax0 : 0 ≤ ax := le_min (le_max_right _ 0) (by omega)
  have hay0 : 0 ≤ ay := le_min (le_max_right _ 0) (by omega)
  have haxlt : ax ≤ p.size_x - 1 := min_le_right _ _
  have haylt : ay ≤ p.size_y - 1 := min_le_right _ _
  have hidx0 : 0 ≤ ay * p.size_y + ax := by positivity
  have hidxlt : ay * p.size_y + ax < p.size_x * p.size_y := by
    nlinarith [mul_nonneg (sub_nonneg.mpr hyx) (by omega : (0:ℤ) ≤ p.size_y - 1)]
  rw [if_pos hidx0, if_pos hidx0]
  have hlt' : (ay * p.size_y + ax).toNat < p.cells.length := by
    rw [hlen]
    have hcast : ((p.size_x.toNat * p.size_y.toNat : ℕ) : ℤ) = p.size_x * p.size_y := by
      push_cast
      rw [Int.toNat_of_nonneg hx.le, Int.toNat_of_nonneg hy.le]
    omega
  rcases hget : p.cells.get? (ay * p.size_y + ax).toNat with _ | c
  · rw [List.get?_eq_none] at hget
    omega
  · exact ⟨_, c, rfl⟩

/-- C6 (amended): behaviour of `sightline_cell` on a well-formed plate
with `size_y ≤ size_x` (so that the stride slip in `closest_cell`
cannot raise).  A parallel sightline gives "no cell"; otherwise the
computed point lies on the line through camera and keypoint and on the
plane `z = 0`, it always matches a cell, and the result is that single
cell when the squared distance is within `1.415 ^ 2` — the actual
cutoff, slightly LARGER than `sqrt 2` — and "no cell" beyond it.  The
`Option` result makes multiple candidates impossible by construction. -/
theorem sightline_cell_characterization
    (p : Plate) (hwf : p.WF) (hyx : p.size_y ≤ p.size_x) (camera keypoint : Q3) :
    (camera.z = keypoint.z → sightline_cell p camera keypoint = .ok none) ∧
    (camera.z ≠ keypoint.z →
      ∃ raw i cell,
        raw.z = 0 ∧
        (∃ t : ℚ, raw = t • (camera - keypoint) + keypoint) ∧
        closest_cell p raw = some (i, cell) ∧
        ((dot (cell.coords - raw) (cell.coords - raw) ≤ (1.415 : ℚ) ^ 2 →
            sightline_cell p camera keypoint = .ok (some (i, cell))) ∧
         ((1.415 : ℚ) ^ 2 < dot (cell.coords - raw) (cell.coords - raw) →
            sightline_cell p camera keypoint = .ok none))) := by
  constructor
  · intro h
    rw [sightline_cell, if_pos h]
  · intro hne
    have hdz : (camera - keypoint).z ≠ 0 := by
      show camera.z - keypoint.z ≠ 0
      exact sub_ne_zero.mpr hne
    obtain ⟨i, cell, hcc⟩ := closest_cell_isSome p hwf hyx
      ((-keypoint.z / (camera - keypoint).z) • (camera - keypoint) + keypoint)
    have hsl : sightline_cell p camera keypoint =
        if dot (cell.coords - ((-keypoint.z / (camera - keypoint).z) • (camera - keypoint) + keypoint))
            (cell.coords - ((-keypoint.z / (camera - keypoint).z) • (camera - keypoint) + keypoint))
          ≤ (1.415 : ℚ) ^ 2
        then .ok (some (i, cell)) else .ok none := by
      rw [sightline_cell, if_neg hne]
      show (match closest_cell p
              ((-keypoint.z / (camera - keypoint).z) • (camera - keypoint) + keypoint) with
            | none => (.error () : Except Unit (Option (ℕ × Cell)))
            | some (i, cell) =>
              if dot (cell.coords - ((-keypoint.z / (camera - keypoint).z) • (camera - keypoint) + keypoint))
                  (cell.coords - ((-keypoint.z / (camera - keypoint).z) • (camera - keypoint) + keypoint))
                ≤ (1.415 : ℚ) ^ 2
              then .ok (some (i, cell)) else .ok none) = _
      rw [hcc]
    refine ⟨_, i, cell, ?_, ⟨-keypoint.z / (camera - keypoint).z, rfl⟩, hcc, ?_, ?_⟩
    · show (-keypoint.z / (camera - keypoint).z) * (camera - keypoint).z + keypoint.z = 0
      have hdz' : camera.z - keypoint.z ≠ 0 := sub_ne_zero.mpr hne
      simp only [Vec3.sub_def]
      field_simp
    · intro hle
      rw [hsl, if_pos hle]
    · intro hgt
      rw [hsl, if_neg (not_le.mpr hgt)]

/-- Witness for C6: the characterization applied to `Plate(0,0,1,1)`
with camera `(0,0,-1)` and keypoint `(0,0,1)`. -/
theorem sightline_cell_characterization_witness :
    ∃ raw i cell,
      raw.z = 0 ∧
      (∃ t : ℚ, raw = t • ((⟨0, 0, -1⟩ : Q3) - ⟨0, 0, 1⟩) + ⟨0, 0, 1⟩) ∧
      closest_cell plate1x1 raw = some (i, cell) ∧
      ((dot (cell.coords - raw) (cell.coords - raw) ≤ (1.415 : ℚ) ^ 2 →
          sightline_cell plate1x1 ⟨0, 0, -1⟩ ⟨0, 0, 1⟩ = .ok (some (i, cell))) ∧
       ((1.415 : ℚ) ^ 2 < dot (cell.coords - raw) (cell.coords - raw) →
          sightline_cell plate1x1 ⟨0, 0, -1⟩ ⟨0, 0, 1⟩ = .ok none)) :=
  (sightline_cell_characterization plate1x1 (by with_unfolding_all decide)
    (by norm_num [plate1x1]) ⟨0, 0, -1⟩ ⟨0, 0, 1⟩).2 (by norm_num)

end Holo
